import Mathlib

/-!
Verification development for the `youtube-mp3` command-line pipeline
(`src/youtube-mp3.js`).  The program is a linear pipeline: fetch a video
stream into a byte buffer, transcode it to mp3 via a subprocess, write id3
tags collected interactively, and report a summary.  This file gives a
shallow embedding of the pure logic of that script — exit codes, the
byte-buffer accumulation and download-rate computation of the data handler,
the conversion-progress delta computation, the title-splitting regular
expression with its default-tag derivation, the prompt options of the
metadata stage, the tag record handed to the tag-writing call, and the
timestamps bounding the reported elapsed duration — and proves or refutes
the specification's claims about them.
-/

namespace YoutubeMp3

/-! ## Exit codes

`process.exit(55)` when the URL argument is missing (line 45); the shared
helper `error` (lines 184-187) calls `process.exit(25)`, and it is the
handler for both the ytdl stream `error` event (fetch failure, line 97) and
the ffmpeg `error` event (conversion failure, lines 117-119).  Success falls
through with status 0. -/

def successExit : Nat := 0

def missingUrlExit : Nat := 55

/-- The single exit status used by the `error` helper (`process.exit(25)`). -/
def errorExit : Nat := 25

/-- Fetch failure (the ytdl `error` handler) terminates through `error`. -/
def fetchFailureExit : Nat := errorExit

/-- Conversion failure (the ffmpeg `error` handler) terminates through `error`. -/
def conversionFailureExit : Nat := errorExit

/-! ## Fetch stage: the `data` handler (lines 87-95)

State carried across chunk events: the byte buffer `data` (grown with
`Buffer.concat([data, chunk], data.length + chunk.length)`), the progress
bar created by the `response` handler with `total` taken from the
`content-length` header (`parseInt` of an absent header is NaN, modelled as
`none`), the bar position advanced by `tick(chunk.length, ...)`, and the
download rate `data.length / Math.max(now - startTime, 1)` computed after
appending the chunk.  Bytes are modelled as naturals, times in seconds as
rationals. -/

structure FetchState where
  data : List Nat
  barTotal : Option Nat
  barCurr : Nat
  rate : ℚ

/-- Initial fetch state after the `response` handler: empty buffer, bar total
from the `content-length` header (`none` when the header is absent). -/
def initFetch (contentLength : Option Nat) : FetchState :=
  ⟨[], contentLength, 0, 0⟩

/-- One `data` event: `ev.1` is the chunk, `ev.2` the value of
`util.nowSeconds()` at the event. -/
def onData (startTime : ℚ) (st : FetchState) (ev : List Nat × ℚ) : FetchState :=
  let d := st.data ++ ev.1
  ⟨d, st.barTotal, st.barCurr + ev.1.length, (d.length : ℚ) / max (ev.2 - startTime) 1⟩

/-- Processing every chunk event of the stream, in arrival order. -/
def runFetch (startTime : ℚ) (st : FetchState) (evs : List (List Nat × ℚ)) : FetchState :=
  evs.foldl (onData startTime) st

/-- The download rate reported at each chunk event, in order. -/
def fetchRates (startTime : ℚ) (st : FetchState) : List (List Nat × ℚ) → List ℚ
  | [] => []
  | ev :: rest => (onData startTime st ev).rate :: fetchRates startTime (onData startTime st ev) rest

/-- The rate sequence the specification describes: at each event, total bytes
received so far divided by the elapsed seconds floored to a minimum of 1. -/
def rateSpec (startTime : ℚ) (acc : Nat) : List (List Nat × ℚ) → List ℚ
  | [] => []
  | ev :: rest =>
      ((acc + ev.1.length : ℕ) : ℚ) / max (ev.2 - startTime) 1 ::
        rateSpec startTime (acc + ev.1.length) rest

/-! ## Conversion stage: the `progress` handler (lines 113-124)

`var last = 0;` then on each progress report
`var diff = Math.ceil(progress.percent) - last; last = Math.ceil(progress.percent);
convertProgress.tick(diff, ...)`.  Percentages are modelled as rationals,
`Math.ceil` as the integer ceiling. -/

/-- The sequence of tick deltas emitted for a sequence of cumulative percent
reports, starting from a given value of `last`. -/
def convertTicks : ℤ → List ℚ → List ℤ
  | _, [] => []
  | last, p :: rest => (⌈p⌉ - last) :: convertTicks ⌈p⌉ rest

/-- The value of `last` after a sequence of progress reports. -/
def finalLast : ℤ → List ℚ → ℤ
  | last, [] => last
  | _, p :: rest => finalLast ⌈p⌉ rest

/-! ## Metadata stage: `TITLE_REGEX` and `processMetadata` (lines 19, 159-182)

`const TITLE_REGEX = /([\S| ]+)-([\S| ]+)/;` is executed against the video
title.  The character class `[\S| ]` matches any character that is not
whitespace, plus the literal `|` and the space.  Strings are characters
lists; matching follows the JavaScript engine: the leftmost start position
wins, at a given start the first (greedy) group backtracks from the longest
class run, the separator must be a literal hyphen, the second (greedy)
group takes the longest class run after it and must be non-empty. -/

/-- JavaScript whitespace (the `\s` class, as used by `\S` and `trim`). -/
def isJsSpace (c : Char) : Bool :=
  c = ' ' || c = '\t' || c = '\n' || c = '\x0b' || c = '\x0c' || c = '\r' ||
  c = ' ' || c = ' ' || (0x2000 ≤ c.toNat && c.toNat ≤ 0x200a) ||
  c = ' ' || c = ' ' || c = ' ' || c = ' ' ||
  c = '　' || c = '﻿'

/-- Membership in the character class `[\S| ]`. -/
def inTitleClass (c : Char) : Bool :=
  !(isJsSpace c) || c = '|' || c = ' '

/-- Length of the longest prefix lying inside the class `[\S| ]`. -/
def classRun : List Char → Nat
  | [] => 0
  | c :: rest => if inTitleClass c then classRun rest + 1 else 0

/-- Backtracking over the length of the first group: try group-one lengths
`k, k-1, …, 1`; a length succeeds when the next character is the hyphen and
at least one class character follows it, in which case the second group
greedily takes the whole class run after the hyphen. -/
def tryGroup1 (s : List Char) : Nat → Option (List Char × List Char)
  | 0 => none
  | k + 1 =>
      if (s.drop (k + 1)).head? = some '-' ∧ 1 ≤ classRun (s.drop (k + 2)) then
        some (s.take (k + 1), (s.drop (k + 2)).take (classRun (s.drop (k + 2))))
      else tryGroup1 s k

/-- Matching `([\S| ]+)-([\S| ]+)` anchored at the start of `s`: the greedy
first group starts from the longest class run. -/
def matchFrom (s : List Char) : Option (List Char × List Char) :=
  tryGroup1 s (classRun s)

/-- `TITLE_REGEX.exec`: try each start position from the left; the result is
the pair of captured groups. -/
def execTitleRegex : List Char → Option (List Char × List Char)
  | [] => none
  | c :: rest => (matchFrom (c :: rest)).elim (execTitleRegex rest) some

/-- `String.prototype.trim`: strip JavaScript whitespace from both ends. -/
def jsTrim (s : List Char) : List Char :=
  ((s.dropWhile isJsSpace).reverse.dropWhile isJsSpace).reverse

/-- The default title and artist derived in `processMetadata` before
prompting: when `TITLE_REGEX` matches, the artist defaults to the trimmed
first group and the title to the trimmed second group; otherwise the title
defaults to the whole video title and the artist has no default (`null`). -/
structure TagDefaults where
  title : List Char
  artist : Option (List Char)
deriving DecidableEq

/-- Lines 160-172 of `processMetadata`. -/
def metaDefaults (videoTitle : List Char) : TagDefaults :=
  (execTitleRegex videoTitle).elim ⟨videoTitle, none⟩ fun g => ⟨jsTrim g.2, some (jsTrim g.1)⟩

/-! ## Metadata stage: prompts (lines 174-179)

`meta.title = prompt('Title: ', {required: true, default: meta.title});`
`meta.artist = prompt('Artist: ', {required: true, default: meta.artist});`
`meta.album = prompt('Album: ', {required: true});`
`meta.genre = prompt('Genre: ');`
`meta.date = prompt('Year: ');`
Prompting without options means the field is not required and has no
default. -/

structure PromptOpts where
  required : Bool
  defaultVal : Option (List Char)
deriving DecidableEq

def titlePromptOpts (d : TagDefaults) : PromptOpts := ⟨true, some d.title⟩

def artistPromptOpts (d : TagDefaults) : PromptOpts := ⟨true, d.artist⟩

def albumPromptOpts : PromptOpts := ⟨true, none⟩

def genrePromptOpts : PromptOpts := ⟨false, none⟩

def datePromptOpts : PromptOpts := ⟨false, none⟩

/-- Modelled from the spec: the interactive prompt implementation
(`prompt.js`) is not among the sources.  Per the specification, a field
prompted with `required` set re-prompts or fails rather than accept an
empty value, so only a field prompted without `required` may be left
blank. -/
def canBeLeftEmpty (o : PromptOpts) : Bool := !o.required

/-! ## Metadata stage: the tag set passed to the tag writer (lines 133-141)

`processMetadata` returns an object with the five keys `title`, `artist`,
`album`, `genre`, `date`; a field with no user input and no default is
`null`.  The handler computes
`var filtered = filter(metadata, function(val) { return !!val; });`
but then calls `ffMetadata.write(musicFileName, metadata, …)` with the
unfiltered record.  A tag object is modelled as an association list of
key/value pairs, a value being `none` for `null` and `some s` for a string
`s` (`!!val` is false exactly for `null` and the empty string). -/

structure TagRecord where
  title : Option (List Char)
  artist : Option (List Char)
  album : Option (List Char)
  genre : Option (List Char)
  date : Option (List Char)

/-- JavaScript truthiness `!!val` of a tag value. -/
def truthy : Option (List Char) → Bool
  | none => false
  | some s => !s.isEmpty

/-- The object returned by `processMetadata`, as key/value pairs: all five
keys are always present. -/
def metaPairs (t : TagRecord) : List (List Char × Option (List Char)) :=
  [("title".toList, t.title), ("artist".toList, t.artist),
   ("album".toList, t.album), ("genre".toList, t.genre),
   ("date".toList, t.date)]

/-- The `filtered` value computed on line 136: the pairs whose value is
truthy. -/
def filteredPairs (t : TagRecord) : List (List Char × Option (List Char)) :=
  (metaPairs t).filter fun p => truthy p.2

/-- The tag set actually passed to `ffMetadata.write` on line 137: the
unfiltered `metadata` record. -/
def writeCallArg (t : TagRecord) : List (List Char × Option (List Char)) :=
  metaPairs t

/-! ## Timing (lines 60-61, 133-134, 149)

`startTime` and `endTime` are both set to `util.nowSeconds()` at program
start; the handler that runs when conversion completes reassigns
`endTime = util.nowSeconds()` before prompting for metadata; the reporter
that runs after the metadata stage prints `endTime - startTime`. -/

structure ProgState where
  startTime : Nat
  endTime : Nat

/-- Lines 60-61: both timestamps are initialised to the current time. -/
def initProg (now : Nat) : ProgState := ⟨now, now⟩

/-- Line 134: the handler fired by conversion completion reassigns
`endTime`. -/
def onConvertCompleted (s : ProgState) (now : Nat) : ProgState :=
  ⟨s.startTime, now⟩

/-- Line 149: the reporter prints `endTime - startTime`; it does not touch
either timestamp, whatever the current time is. -/
def reportedRuntime (s : ProgState) : ℤ :=
  (s.endTime : ℤ) - s.startTime

/-- The whole pipeline's timing behaviour: the program starts at `t0`,
conversion completes at `t1`, the metadata stage completes at `t2` and the
reporter then prints the runtime. -/
def pipelineRuntime (t0 t1 _t2 : Nat) : ℤ :=
  reportedRuntime (onConvertCompleted (initProg t0) t1)

/-! ## Claims about the exit codes, prompts, tag set and timing -/

/-- Claim C1, counterexample: the exit code for fetch failure does not
differ from the exit code for conversion failure — both run through the
shared `error` helper and exit with status 25 — so the claimed pairwise
distinctness of the failure codes is false. -/
theorem fetch_and_conversion_share_exit_code :
    ¬ (fetchFailureExit ≠ conversionFailureExit) ∧
    fetchFailureExit = 25 ∧ conversionFailureExit = 25 := by decide

/-- Claim C1, amended: success exits 0, a missing URL exits 55, and both
fetch failure and conversion failure exit 25 — the two runtime failure
classes share a single exit code, non-zero and distinct from the
missing-argument code, so only the missing-argument case is distinguishable
from the runtime failures. -/
theorem exit_codes_characterisation :
    successExit = 0 ∧ missingUrlExit = 55 ∧
    fetchFailureExit = 25 ∧ conversionFailureExit = 25 ∧
    missingUrlExit ≠ successExit ∧ fetchFailureExit ≠ successExit ∧
    conversionFailureExit ≠ successExit ∧ missingUrlExit ≠ fetchFailureExit ∧
    fetchFailureExit = conversionFailureExit := by decide

/-- Claim C2: for a tag record whose `genre` and `date` resolved to `null`
(no user input and no default), the record passed to `ffMetadata.write`
still contains both keys: the call receives the unfiltered `metadata`
object, not the `filtered` value computed just above it, so empty fields
are not omitted from the written tag set. -/
theorem tag_write_receives_unfiltered_record :
    ("genre".toList, (none : Option (List Char))) ∈
      writeCallArg ⟨some "Song".toList, some "Artist".toList, some "Album".toList, none, none⟩ ∧
    ("genre".toList, (none : Option (List Char))) ∉
      filteredPairs ⟨some "Song".toList, some "Artist".toList, some "Album".toList, none, none⟩ ∧
    writeCallArg ⟨some "Song".toList, some "Artist".toList, some "Album".toList, none, none⟩ ≠
      filteredPairs ⟨some "Song".toList, some "Artist".toList, some "Album".toList, none, none⟩ := by
  decide

/-- Claim C3, counterexample: album is not optional — its prompt passes
`required: true` (line 177), so it is not the case that album, genre and
date may each be left blank. -/
theorem album_prompt_is_required :
    ¬ (canBeLeftEmpty albumPromptOpts = true ∧ canBeLeftEmpty genrePromptOpts = true ∧
       canBeLeftEmpty datePromptOpts = true) := by decide

/-- Claim C3, amended: title, artist and album are all prompted with
`required` set and cannot be left empty; only genre and date are optional
and may be left blank. -/
theorem prompt_required_fields (d : TagDefaults) :
    canBeLeftEmpty (titlePromptOpts d) = false ∧
    canBeLeftEmpty (artistPromptOpts d) = false ∧
    canBeLeftEmpty albumPromptOpts = false ∧
    canBeLeftEmpty genrePromptOpts = true ∧
    canBeLeftEmpty datePromptOpts = true :=
  ⟨rfl, rfl, rfl, rfl, rfl⟩

/-- Claim C9, counterexample: with the program starting at second 0,
conversion completing at second 10 and the metadata stage completing at
second 20, the printed runtime is 10 seconds, not the 20 seconds that an
end timestamp taken after all stages would give. -/
theorem runtime_excludes_metadata_stage_cex :
    pipelineRuntime 0 10 20 = 10 ∧ pipelineRuntime 0 10 20 ≠ (20 : ℤ) - 0 := by decide

/-- Claim C9, amended: the end timestamp is captured when the conversion
stage completes, before metadata tagging, so the printed elapsed time
equals conversion-completion time minus start time and excludes the time
spent in the metadata and reporting stages. -/
theorem reported_runtime_ends_at_conversion (t0 t1 t2 : Nat) :
    pipelineRuntime t0 t1 t2 = (t1 : ℤ) - t0 := rfl

/-- Claim C10: the greedy first capture group makes a multi-hyphen title
split at its last hyphen — `"A - B - C"` yields default artist `"A - B"`
and default title `"C"`, not artist `"A"`. -/
theorem title_split_at_last_hyphen :
    metaDefaults ("A - B - C".toList) = ⟨"C".toList, some ("A - B".toList)⟩ ∧
    (metaDefaults ("A - B - C".toList)).artist ≠ some ("A".toList) := by decide

/-! ## Fetch-stage lemmas and claims -/

theorem runFetch_cons (startTime : ℚ) (st : FetchState) (ev : List Nat × ℚ)
    (rest : List (List Nat × ℚ)) :
    runFetch startTime st (ev :: rest) = runFetch startTime (onData startTime st ev) rest := rfl

theorem runFetch_data_eq (startTime : ℚ) (evs : List (List Nat × ℚ)) :
    ∀ st : FetchState, (runFetch startTime st evs).data = st.data ++ (evs.map Prod.fst).flatten := by
  induction evs with
  | nil => intro st; simp [runFetch]
  | cons ev rest ih =>
      intro st
      rw [runFetch_cons, ih]
      simp [onData]

theorem runFetch_barTotal_eq (startTime : ℚ) (evs : List (List Nat × ℚ)) :
    ∀ st : FetchState, (runFetch startTime st evs).barTotal = st.barTotal := by
  induction evs with
  | nil => intro st; rfl
  | cons ev rest ih =>
      intro st
      rw [runFetch_cons, ih]
      rfl

theorem runFetch_barCurr_eq (startTime : ℚ) (evs : List (List Nat × ℚ)) :
    ∀ st : FetchState,
      (runFetch startTime st evs).barCurr = st.barCurr + (evs.map fun e => e.1.length).sum := by
  induction evs with
  | nil => intro st; simp [runFetch]
  | cons ev rest ih =>
      intro st
      rw [runFetch_cons, ih]
      simp [onData]
      omega

/-- Claim C5: for every sequence of chunk events, the final byte buffer is
the concatenation of the chunks in arrival order, and its length is the sum
of the individual chunk lengths. -/
theorem buffer_concat_spec (startTime : ℚ) (contentLength : Option Nat)
    (evs : List (List Nat × ℚ)) :
    (runFetch startTime (initFetch contentLength) evs).data = (evs.map Prod.fst).flatten ∧
    (runFetch startTime (initFetch contentLength) evs).data.length =
      ((evs.map Prod.fst).map List.length).sum := by
  have h : (runFetch startTime (initFetch contentLength) evs).data = (evs.map Prod.fst).flatten := by
    simpa [initFetch] using runFetch_data_eq startTime evs (initFetch contentLength)
  exact ⟨h, by rw [h, List.length_flatten]⟩

theorem fetchRates_eq_rateSpec (startTime : ℚ) (evs : List (List Nat × ℚ)) :
    ∀ st : FetchState, fetchRates startTime st evs = rateSpec startTime st.data.length evs := by
  induction evs with
  | nil => intro st; rfl
  | cons ev rest ih =>
      intro st
      show (onData startTime st ev).rate :: fetchRates startTime (onData startTime st ev) rest = _
      rw [ih]
      have hd : (onData startTime st ev).data.length = st.data.length + ev.1.length := by
        simp [onData]
      rw [hd]
      have hr : (onData startTime st ev).rate =
          ((st.data.length + ev.1.length : ℕ) : ℚ) / max (ev.2 - startTime) 1 := by
        simp [onData]
      rw [hr]
      rfl

/-- Claim C6: at every chunk event the reported download rate equals the
total number of bytes received so far divided by the elapsed seconds
floored to a minimum of 1, and that divisor is always positive, so the rate
computation never divides by zero. -/
theorem download_rate_spec (startTime : ℚ) (contentLength : Option Nat)
    (evs : List (List Nat × ℚ)) :
    fetchRates startTime (initFetch contentLength) evs = rateSpec startTime 0 evs ∧
    ∀ now : ℚ, 0 < max (now - startTime) 1 := by
  constructor
  · have h := fetchRates_eq_rateSpec startTime evs (initFetch contentLength)
    simpa [initFetch] using h
  · intro now
    exact lt_of_lt_of_le zero_lt_one (le_max_right _ _)

/-- Claim C7: when the `content-length` header is absent (total size
unknown), processing any sequence of chunk events is still well defined —
the bar total simply stays unknown (open-ended mode), the bar position
advances by the chunk length on every chunk, and after the whole stream the
bar position is the total number of bytes received. -/
theorem progress_total_unknown_safe (startTime : ℚ) (evs : List (List Nat × ℚ)) :
    (runFetch startTime (initFetch none) evs).barTotal = none ∧
    (runFetch startTime (initFetch none) evs).barCurr = (evs.map fun e => e.1.length).sum ∧
    ∀ (st : FetchState) (ev : List Nat × ℚ),
      (onData startTime st ev).barCurr = st.barCurr + ev.1.length := by
  refine ⟨runFetch_barTotal_eq startTime evs _, ?_, fun st ev => rfl⟩
  have h := runFetch_barCurr_eq startTime evs (initFetch none)
  simpa [initFetch] using h

/-! ## Conversion-progress claims -/

theorem convertTicks_sum_eq (ps : List ℚ) :
    ∀ last : ℤ, (convertTicks last ps).sum = finalLast last ps - last := by
  induction ps with
  | nil => intro last; simp [convertTicks, finalLast]
  | cons p rest ih =>
      intro last
      simp only [convertTicks, finalLast, List.sum_cons, ih ⌈p⌉]
      ring

theorem convertTicks_nonneg_of_chain (ps : List ℚ) :
    ∀ last : ℤ, List.Chain' (· ≤ ·) ps → (∀ p ∈ ps.head?, last ≤ ⌈p⌉) →
      ∀ d ∈ convertTicks last ps, 0 ≤ d := by
  induction ps with
  | nil => intro last _ _ d hd; simp [convertTicks] at hd
  | cons p rest ih =>
      intro last hch hhd d hd
      simp only [convertTicks, List.mem_cons] at hd
      rcases hd with h | h
      · have hp : last ≤ ⌈p⌉ := hhd p rfl
        omega
      · rcases List.chain'_cons'.1 hch with ⟨hrel, htail⟩
        refine ih ⌈p⌉ htail ?_ d h
        intro q hq
        exact Int.ceil_le_ceil (hrel q hq)

/-- Claim C4: from `last = 0`, every emitted conversion-progress tick is the
ceiling of the current cumulative percent minus the previously recorded
ceiling; for a non-decreasing sequence of non-negative cumulative percents
no tick is negative, the ticks sum to the final recorded ceiling (so no
percentage point is double-counted), and the report sequence
0, 5, 5, 12, 12, 12, 100 yields the emitted deltas 0, 5, 0, 7, 0, 0, 88. -/
theorem convert_ticks_spec (ps : List ℚ) (hmono : List.Chain' (· ≤ ·) ps)
    (hpos : ∀ p ∈ ps, 0 ≤ p) :
    (∀ d ∈ convertTicks 0 ps, 0 ≤ d) ∧
    (convertTicks 0 ps).sum = finalLast 0 ps ∧
    convertTicks 0 [0, 5, 5, 12, 12, 12, 100] = [0, 5, 0, 7, 0, 0, 88] := by
  refine ⟨?_, ?_, by decide⟩
  · refine convertTicks_nonneg_of_chain ps 0 hmono ?_
    intro p hp
    have hmem : p ∈ ps := by
      cases ps with
      | nil => simp at hp
      | cons q rest =>
          simp only [List.head?_cons, Option.mem_def, Option.some.injEq] at hp
          simp [hp]
    exact Int.ceil_nonneg (hpos p hmem)
  · have h := convertTicks_sum_eq ps 0
    omega

/-- Claim C4, witness: the theorem applied to the concrete report sequence
0, 5, 5, 12, 12, 12, 100, which is non-decreasing and non-negative. -/
theorem convert_ticks_spec_witness :
    convertTicks 0 [0, 5, 5, 12, 12, 12, 100] = [0, 5, 0, 7, 0, 0, 88] :=
  (convert_ticks_spec [0, 5, 5, 12, 12, 12, 100] (by norm_num [List.chain'_cons])
    (by norm_num [List.forall_mem_cons])).2.2

/-! ## Title-regex lemmas -/

theorem classRun_append_of_mem (xs ys : List Char)
    (h : ∀ c ∈ xs, inTitleClass c = true) :
    classRun (xs ++ ys) = xs.length + classRun ys := by
  induction xs with
  | nil => simp [classRun]
  | cons c rest ih =>
      have hc : inTitleClass c = true := h c (List.mem_cons_self c rest)
      have hrest := ih fun a ha => h a (List.mem_cons_of_mem c ha)
      simp only [List.cons_append, classRun, hc, if_true, List.append_eq, hrest,
        List.length_cons]
      omega

theorem classRun_eq_length (xs : List Char) (h : ∀ c ∈ xs, inTitleClass c = true) :
    classRun xs = xs.length := by
  have hx := classRun_append_of_mem xs [] h
  simpa [classRun] using hx

theorem tryGroup1_at_sep (l r : List Char) (hl : l ≠ []) (hr : r ≠ [])
    (hrc : ∀ c ∈ r, inTitleClass c = true) :
    tryGroup1 (l ++ '-' :: r) l.length = some (l, r) := by
  obtain ⟨c, l', rfl⟩ := List.exists_cons_of_ne_nil hl
  have hdrop1 : ((c :: l') ++ '-' :: r).drop (l'.length + 1) = '-' :: r := by
    simpa using List.drop_left (c :: l') ('-' :: r)
  have hdrop2 : ((c :: l') ++ '-' :: r).drop (l'.length + 2) = r := by
    have h2 := congrArg (List.drop 1) hdrop1
    rw [List.drop_drop] at h2
    simpa using h2
  rw [show (c :: l').length = l'.length + 1 from rfl]
  simp only [tryGroup1]
  rw [hdrop1, hdrop2, classRun_eq_length r hrc]
  rw [if_pos ⟨rfl, List.length_pos.mpr hr⟩]
  rw [List.take_length]
  rw [show l'.length + 1 = (c :: l').length from rfl, List.take_left]

theorem tryGroup1_add (l r : List Char) (hl : l ≠ []) (hr : r ≠ [])
    (hrc : ∀ c ∈ r, inTitleClass c = true) (hnr : '-' ∉ r) :
    ∀ d, tryGroup1 (l ++ '-' :: r) (l.length + d) = some (l, r) := by
  intro d
  induction d with
  | zero => simpa using tryGroup1_at_sep l r hl hr hrc
  | succ d ih =>
      have hdr : (l ++ '-' :: r).drop (l.length + d + 1) = r.drop d := by
        have h := @List.drop_append Char l ('-' :: r) (d + 1)
        simpa [Nat.add_assoc] using h
      have hneg : ¬ (((l ++ '-' :: r).drop (l.length + d + 1)).head? = some '-' ∧
          1 ≤ classRun ((l ++ '-' :: r).drop (l.length + d + 2))) := by
        rintro ⟨h1, -⟩
        rw [hdr] at h1
        have hmem : '-' ∈ r.drop d := by
          cases hdd : r.drop d with
          | nil => rw [hdd] at h1; simp at h1
          | cons a t =>
              rw [hdd] at h1
              simp only [List.head?_cons, Option.some.injEq] at h1
              subst h1
              exact List.mem_cons_self _ _
        exact hnr (List.drop_subset d r hmem)
      rw [show l.length + (d + 1) = (l.length + d) + 1 from rfl]
      simp only [tryGroup1]
      rw [if_neg hneg]
      exact ih

theorem matchFrom_split (l r : List Char) (hl : l ≠ []) (hr : r ≠ [])
    (hlc : ∀ c ∈ l, inTitleClass c = true) (hrc : ∀ c ∈ r, inTitleClass c = true)
    (hnr : '-' ∉ r) :
    matchFrom (l ++ '-' :: r) = some (l, r) := by
  unfold matchFrom
  have hsep : classRun ('-' :: r) = r.length + 1 := by
    have hd : inTitleClass '-' = true := by decide
    simp only [classRun, hd, if_true, classRun_eq_length r hrc]
  have hcr : classRun (l ++ '-' :: r) = l.length + (1 + r.length) := by
    rw [classRun_append_of_mem l _ hlc, hsep]
    omega
  rw [hcr]
  exact tryGroup1_add l r hl hr hrc hnr (1 + r.length)

theorem execTitleRegex_split (l r : List Char) (hl : l ≠ []) (hr : r ≠ [])
    (hlc : ∀ c ∈ l, inTitleClass c = true) (hrc : ∀ c ∈ r, inTitleClass c = true)
    (hnr : '-' ∉ r) :
    execTitleRegex (l ++ '-' :: r) = some (l, r) := by
  have hm := matchFrom_split l r hl hr hlc hrc hnr
  obtain ⟨c, l', rfl⟩ := List.exists_cons_of_ne_nil hl
  rw [List.cons_append] at hm ⊢
  simp only [execTitleRegex, hm, Option.elim]

theorem tryGroup1_eq_none (s : List Char) (h : '-' ∉ s) : ∀ k, tryGroup1 s k = none := by
  intro k
  induction k with
  | zero => rfl
  | succ k ih =>
      have hneg : ¬ ((s.drop (k + 1)).head? = some '-' ∧
          1 ≤ classRun (s.drop (k + 2))) := by
        rintro ⟨h1, -⟩
        have hmem : '-' ∈ s.drop (k + 1) := by
          cases hdd : s.drop (k + 1) with
          | nil => rw [hdd] at h1; simp at h1
          | cons a t =>
              rw [hdd] at h1
              simp only [List.head?_cons, Option.some.injEq] at h1
              subst h1
              exact List.mem_cons_self _ _
        exact h (List.drop_subset (k + 1) s hmem)
      simp only [tryGroup1]
      rw [if_neg hneg]
      exact ih

theorem execTitleRegex_eq_none (s : List Char) (h : '-' ∉ s) : execTitleRegex s = none := by
  induction s with
  | nil => rfl
  | cons c rest ih =>
      have hm : matchFrom (c :: rest) = none := tryGroup1_eq_none (c :: rest) h _
      have htail : execTitleRegex rest = none :=
        ih fun hmem => h (List.mem_cons_of_mem c hmem)
      simp only [execTitleRegex, hm, Option.elim, htail]

/-- Claim C8: a video title of the form `left ++ "-" ++ right` — both parts
non-empty, made of characters of the class `[\S| ]`, the separator being the
last hyphen — gives default tag artist `trim left` and default tag title
`trim right`; a title containing no hyphen at all gives the whole title
string as the default title and no default artist. -/
theorem title_defaults_spec :
    (∀ l r : List Char, l ≠ [] → r ≠ [] →
        (∀ c ∈ l, inTitleClass c = true) → (∀ c ∈ r, inTitleClass c = true) → '-' ∉ r →
        metaDefaults (l ++ '-' :: r) = ⟨jsTrim r, some (jsTrim l)⟩) ∧
    (∀ t : List Char, '-' ∉ t → metaDefaults t = ⟨t, none⟩) := by
  constructor
  · intro l r hl hr hlc hrc hnr
    unfold metaDefaults
    rw [execTitleRegex_split l r hl hr hlc hrc hnr]
    rfl
  · intro t ht
    unfold metaDefaults
    rw [execTitleRegex_eq_none t ht]
    rfl

/-- Claim C8, witness: the theorem applied to the concrete titles
`"Artist - Title"` (split into `"Artist "` and `" Title"` around the
hyphen, trimming to `"Artist"` and `"Title"`) and the hyphen-free
`"Some Song"`. -/
theorem title_defaults_spec_witness :
    metaDefaults ("Artist - Title".toList) = ⟨"Title".toList, some ("Artist".toList)⟩ ∧
    metaDefaults ("Some Song".toList) = ⟨"Some Song".toList, none⟩ := by
  have h1 := title_defaults_spec.1 ("Artist ".toList) (" Title".toList)
    (by decide) (by decide) (by decide) (by decide) (by decide)
  have h2 := title_defaults_spec.2 ("Some Song".toList) (by decide)
  constructor
  · have e : "Artist - Title".toList = "Artist ".toList ++ '-' :: " Title".toList := by decide
    rw [e, h1]
    decide
  · exact h2

end YoutubeMp3
